import Mathlib

/-!
# A shallow embedding of the kilo-rust editor core (src/main.rs)

This file translates the data model and the operations of the kilo-rust
text editor into Lean definitions and proves properties of them:

* `Row`, `Row.update`, `Row.insert_char`, … — the line buffer (src lines 80-138);
* `Editor.get_render_index` / `Editor.get_char_index` — the logical/visual
  index translator (src lines 194-236);
* `Editor.scroll` — the viewport manager (src lines 801-827);
* `readKey` / `read_escape_sequence` — the input decoder (src lines 682-750),
  modelled over the list of bytes currently available in the input channel
  (`try_recv` on an empty list is the `TryRecvError::Empty` case; the
  `Disconnected` case is not modelled, the channel is assumed alive);
* `find_callback` / `prompt` / `Editor.find` — the incremental search engine
  (src lines 374-445, 642-680);
* `rows_to_string` / `readLines` / `Editor.openFile` — the persisted-file
  contract (src lines 313-334), with `readLines` modelling Rust's
  `BufRead::lines` (split at LF, strip a trailing CR of each LF-terminated
  fragment, keep a final fragment without LF as-is);
* `Editor.process_keypress` — the controller dispatch (src lines 829-916).

Modelling conventions:
* Strings are `List Char`; the source's byte/char index conflation is resolved
  to char indices (the source assumes single-byte characters throughout).
* `usize` arithmetic is `Nat`; where the source can underflow a `usize`
  (a program error in Rust, a panic in debug builds) the embedding returns
  `Run.panicked` — this happens only inside `find_callback`, whose indexing
  and `unwrap` calls are likewise checked.
* Rust `mpsc` input is the explicit list of pending bytes; a `recv` on an
  empty list is `Run.blocked` (the real program would block forever).
* The status-message text and its timestamp are display-only state with no
  influence on any editor behaviour modelled here; they are omitted from the
  state, and the message strings produced by `find_callback` are returned as
  values exactly as in the source.
* External collaborators are parameters: a regex engine is a `compile`
  function returning an abstract matcher `Rx`, and the file writer used by
  `save` is a function `fs : name → contents → Bool` reporting success.
-/

/-! ## Constants (src lines 14-18) -/

def TAB_STOP : Nat := 8

def QUIT_TIMES : Nat := 3

def NON_PRINTING_CHARACTERS : Bool := false

/-! ## Basic types (src lines 41-78) -/

structure Position where
  x : Nat
  y : Nat
deriving DecidableEq, Repr

structure Dimensions where
  rows : Nat
  cols : Nat
deriving DecidableEq, Repr

inductive KeypressResult where
  | Continue
  | Terminate
deriving DecidableEq, Repr

inductive Arrow where
  | Left
  | Right
  | Up
  | Down
deriving DecidableEq, Repr

inductive Key where
  | Char (c : Char)
  | Ctrl (c : Char)
  | Arrow (a : Arrow)
  | PageUp
  | PageDown
  | Home
  | End
  | Delete
  | Backspace
  | Esc
  | Enter
deriving DecidableEq, Repr

/-- Outcome of running a piece of editor code: a normal result, a block on an
empty input channel (`recv` with no pending bytes), or a Rust panic
(usize underflow in a debug build, a failed `unwrap`, or an out-of-bounds
index). -/
inductive Run (α : Type) where
  | ok (a : α)
  | blocked
  | panicked
deriving DecidableEq, Repr

/-! ## The line buffer: `Row` (src lines 80-138) -/

structure Row where
  chars : List Char
  render : List Char
deriving DecidableEq, Repr

/-- The `while tab_size > 0` loop of `Row::update` (src lines 91-101): the
fill pushed for a single tab, given the initial `tab_size`.  With
`NON_PRINTING_CHARACTERS` off every pushed character is a space; otherwise
the final one (tab_size = 1) is `→` and the rest are `—`. -/
def tabFill : Nat → List Char
  | 0 => []
  | n + 1 =>
    (if !NON_PRINTING_CHARACTERS then ' '
     else if n + 1 = 1 then '→' else '—') :: tabFill n

/-- One iteration of the `for c in self.chars.chars()` loop of `Row::update`
(src lines 89-111): push the rendering of `c` onto the accumulated render. -/
def pushChar (render : List Char) (c : Char) : List Char :=
  if c = '\t' then render ++ tabFill (TAB_STOP - render.length % TAB_STOP)
  else if c = ' ' then
    render ++ [if NON_PRINTING_CHARACTERS then '·' else ' ']
  else render ++ [c]

/-- The render derived from a logical character sequence by `Row::update`
(src lines 86-115). -/
def updateRender (chars : List Char) : List Char :=
  let r := chars.foldl pushChar []
  if NON_PRINTING_CHARACTERS then r ++ ['↵'] else r

/-- `Row::update` (src lines 86-115). -/
def Row.update (r : Row) : Row :=
  { r with render := updateRender r.chars }

/-- A `Row { chars, render: "" }` followed by `update()`, as built by
`Editor::insert_row` (src lines 185-189). -/
def mkRow (chars : List Char) : Row :=
  Row.update { chars := chars, render := [] }

/-- `Row::insert_char` (src lines 117-124): the index is clamped to the
length, the character inserted, the render regenerated. -/
def Row.insert_char (r : Row) (index : Nat) (c : Char) : Row :=
  let i := if index > r.chars.length then r.chars.length else index
  Row.update { r with chars := r.chars.take i ++ c :: r.chars.drop i }

/-- `Row::append_string` (src lines 126-129). -/
def Row.append_string (r : Row) (s : List Char) : Row :=
  Row.update { r with chars := r.chars ++ s }

/-- `Row::delete_char` (src lines 131-137): out-of-bounds indices are
ignored. -/
def Row.delete_char (r : Row) (index : Nat) : Row :=
  if index ≥ r.chars.length then r
  else Row.update { r with chars := r.chars.take index ++ r.chars.drop (index + 1) }

/-- The default used to read a row the source indexes directly
(`self.rows[i]`); every such read in the embedding is guarded by the same
bound condition the source establishes, so the default is never seen. -/
def emptyRow : Row := { chars := [], render := [] }

/-! ## The editor state (src lines 140-176)

The `input` channel receiver is threaded separately as the list of pending
bytes; `status_message` and `status_message_time` are display-only and
omitted (see the header comment). -/

structure Editor where
  screen_dimensions : Dimensions
  cursor_position : Position
  cursor_render_x : Nat
  text_offset : Position
  rows : List Row
  filename : Option (List Char)
  dirty : Bool
  quit_times : Nat
  matches_ : List Nat  -- the source field `matches` (`matches` is a Lean keyword)
  match_index : Nat
deriving DecidableEq, Repr

/-! ## Row operations on the editor (src lines 178-244) -/

/-- `Editor::insert_row` (src lines 180-192): indices past the end are
ignored; the new row's render is generated; the buffer becomes dirty. -/
def Editor.insert_row (st : Editor) (index : Nat) (chars : List Char) : Editor :=
  if index > st.rows.length then st
  else
    { st with
      rows := st.rows.take index ++ mkRow chars :: st.rows.drop index,
      dirty := true }

/-- `Editor::get_current_row` (src lines 238-244). -/
def Editor.get_current_row (st : Editor) : Option Row :=
  st.rows.get? st.cursor_position.y

/-- One step of the render-index accumulation in `Editor::get_render_index`
(src lines 207-210): a tab advances the visual counter to the next multiple
of `TAB_STOP`, any other character advances it by one. -/
def renderAdvance (ri : Nat) (c : Char) : Nat :=
  if c = '\t' then ri + ((TAB_STOP - 1) - ri % TAB_STOP) + 1 else ri + 1

/-- The `for` loop of `Editor::get_render_index` (src lines 203-211). -/
def renderIndexLoop (ri : Nat) : List Char → Nat
  | [] => ri
  | c :: cs => renderIndexLoop (renderAdvance ri c) cs

/-- `Editor::get_render_index` (src lines 194-213): the visual column of the
cursor's logical column.  Rows past the end of the document and logical
column 0 map to visual column 0 without a scan. -/
def Editor.get_render_index (st : Editor) : Nat :=
  if st.cursor_position.y ≥ st.rows.length ∨ st.cursor_position.x = 0 then 0
  else
    renderIndexLoop 0
      (((st.rows.getD st.cursor_position.y emptyRow).chars).take st.cursor_position.x)

/-- The `for` loop of `Editor::get_char_index` (src lines 225-234): advance
both counters per character and return the char counter the first time the
render counter reaches or exceeds the target. -/
def charIndexLoop (target : Nat) : Nat → Nat → List Char → Nat
  | _, ci, [] => ci
  | ri, ci, c :: cs =>
    let ri1 := renderAdvance ri c
    let ci1 := ci + 1
    if ri1 ≥ target then ci1 else charIndexLoop target ri1 ci1 cs

/-- `Editor::get_char_index` (src lines 215-236): the logical column whose
visual column reaches `cursor_render_x`. -/
def Editor.get_char_index (st : Editor) : Nat :=
  if st.cursor_position.y ≥ st.rows.length ∨ st.cursor_render_x = 0 then 0
  else
    charIndexLoop st.cursor_render_x 0 0
      (st.rows.getD st.cursor_position.y emptyRow).chars

/-! ## Editor operations (src lines 246-309) -/

/-- `Editor::insert_char` (src lines 248-256): typing on the virtual line one
past the end materializes it; the current row receives the character at the
cursor column (clamped by `Row::insert_char`); the cursor advances and the
buffer becomes dirty. -/
def Editor.insertChar (st : Editor) (c : Char) : Editor :=
  let st1 :=
    if st.cursor_position.y = st.rows.length then st.insert_row st.rows.length []
    else st
  { st1 with
    rows :=
      st1.rows.set st1.cursor_position.y
        ((st1.rows.getD st1.cursor_position.y emptyRow).insert_char
          st1.cursor_position.x c),
    cursor_position := { st1.cursor_position with x := st1.cursor_position.x + 1 },
    dirty := true }

/-- `Editor::delete_row` (src lines 302-309). -/
def Editor.delete_row (st : Editor) (index : Nat) : Editor :=
  if index ≥ st.rows.length then st
  else { st with rows := st.rows.eraseIdx index, dirty := true }

/-- `Editor::delete_char` (src lines 258-281): backspace semantics — either
delete the character left of the cursor, or join the current row onto the
previous one. -/
def Editor.deleteChar (st : Editor) : Editor :=
  if st.cursor_position.x = 0 ∧ st.cursor_position.y = 0 then st
  else if st.cursor_position.y = st.rows.length then st
  else if 0 < st.cursor_position.x then
    { st with
      rows :=
        st.rows.set st.cursor_position.y
          ((st.rows.getD st.cursor_position.y emptyRow).delete_char
            (st.cursor_position.x - 1)),
      cursor_position := { st.cursor_position with x := st.cursor_position.x - 1 },
      dirty := true }
  else
    let prev := st.rows.getD (st.cursor_position.y - 1) emptyRow
    let cur := st.rows.getD st.cursor_position.y emptyRow
    let st1 :=
      { st with
        cursor_position := { st.cursor_position with x := prev.chars.length },
        rows :=
          st.rows.set (st.cursor_position.y - 1) (prev.append_string cur.chars) }
    let st2 := st1.delete_row st1.cursor_position.y
    { st2 with cursor_position := { st2.cursor_position with y := st2.cursor_position.y - 1 } }

/-- `Editor::insert_newline` (src lines 283-300). -/
def Editor.insert_newline (st : Editor) : Editor :=
  let st1 :=
    if st.cursor_position.x = 0 then st.insert_row st.cursor_position.y []
    else
      let row := st.rows.getD st.cursor_position.y emptyRow
      let st2 := st.insert_row (st.cursor_position.y + 1) (row.chars.drop st.cursor_position.x)
      { st2 with
        rows :=
          st2.rows.set st.cursor_position.y
            (Row.update { row with chars := row.chars.take st.cursor_position.x }) }
  { st1 with cursor_position := { x := 0, y := st1.cursor_position.y + 1 } }

/-! ## File I/O (src lines 311-334) -/

/-- `Editor::rows_to_string` (src lines 326-334): every row's logical text
followed by one newline. -/
def rowsContents : List Row → List Char → List Char
  | [], acc => acc
  | r :: rs, acc => rowsContents rs (acc ++ r.chars ++ ['\n'])

def Editor.rows_to_string (st : Editor) : List Char :=
  rowsContents st.rows []

/-- Strip one trailing carriage return, as `BufRead::lines` does on each
LF-terminated fragment. -/
def stripTrailingCR (l : List Char) : List Char :=
  if l.getLast? = some '\r' then l.dropLast else l

/-- The fragment accumulation behind Rust's `BufRead::lines` over the whole
file contents: split at each LF, strip one CR before an LF, and keep a final
LF-less fragment (including any trailing CR) as a line of its own. -/
def readLinesAux : List Char → List Char → List (List Char)
  | cur, [] => if cur.isEmpty then [] else [cur.reverse]
  | cur, c :: cs =>
    if c = '\n' then stripTrailingCR cur.reverse :: readLinesAux [] cs
    else readLinesAux (c :: cur) cs

/-- Rust's `reader.lines()` used by `Editor::open` (src line 316). -/
def readLines (contents : List Char) : List (List Char) :=
  readLinesAux [] contents

/-- `Editor::open` (src lines 313-324), with the external file read already
performed: each line of the contents is appended with `insert_row`, the
filename recorded, the dirty flag cleared. -/
def Editor.openFile (st : Editor) (filename contents : List Char) : Editor :=
  let st1 := (readLines contents).foldl (fun s l => s.insert_row s.rows.length l) st
  { st1 with filename := some filename, dirty := false }

/-! ## The input decoder (src lines 682-750) -/

/-- `char::is_control` for a `u8` cast to `char`: the Unicode Cc category
restricted to U+0000..U+00FF. -/
def isControl (b : Nat) : Bool :=
  b < 32 || (127 ≤ b && b ≤ 159)

/-- `Editor::read_escape_sequence` (src lines 704-750), over the list of
bytes currently available after the ESC byte.  `try_recv` on an exhausted
list is the `TryRecvError::Empty` case; every arm of the source that ignores
trailing bytes or runs out of bytes produces `Key::Esc`.  Returns the decoded
key and the bytes left unconsumed. -/
def read_escape_sequence : List Nat → Key × List Nat
  | [] => (Key.Esc, [])
  | b :: rest =>
    if b = 91 then
      match rest with
      | [] => (Key.Esc, [])
      | c :: rest2 =>
        if c = 65 then (Key.Arrow Arrow.Up, rest2)
        else if c = 66 then (Key.Arrow Arrow.Down, rest2)
        else if c = 67 then (Key.Arrow Arrow.Right, rest2)
        else if c = 68 then (Key.Arrow Arrow.Left, rest2)
        else if c = 72 then (Key.Home, rest2)
        else if c = 70 then (Key.End, rest2)
        else if 48 ≤ c ∧ c ≤ 57 then
          match rest2 with
          | [] => (Key.Esc, [])
          | d :: rest3 =>
            if d = 126 then
              (if c = 49 ∨ c = 55 then Key.Home
               else if c = 52 ∨ c = 56 then Key.End
               else if c = 51 then Key.Delete
               else if c = 53 then Key.PageUp
               else if c = 54 then Key.PageDown
               else Key.Esc, rest3)
            else (Key.Esc, rest3)
        else (Key.Esc, rest2)
    else if b = 79 then
      match rest with
      | [] => (Key.Esc, [])
      | c :: rest2 =>
        if c = 72 then (Key.Home, rest2)
        else if c = 70 then (Key.End, rest2)
        else (Key.Esc, rest2)
    else (Key.Esc, rest)

/-- `Editor::read_key` (src lines 682-702) over the pending input bytes:
`none` models the blocking `recv` finding the channel empty forever.  Returns
the decoded key and the unconsumed bytes. -/
def readKey : List Nat → Option (Key × List Nat)
  | [] => none
  | b :: rest =>
    some
      (if b = 8 ∨ b = 127 then (Key.Backspace, rest)
       else if b = 13 then (Key.Enter, rest)
       else if b = 27 then read_escape_sequence rest
       else if isControl b then (Key.Ctrl (Char.ofNat (b ||| 96)), rest)
       else (Key.Char (Char.ofNat b), rest))

/-! ## The viewport manager: `Editor::scroll` (src lines 801-827) -/

def Editor.scroll (st : Editor) : Editor :=
  let st1 := { st with cursor_render_x := st.get_render_index }
  let st2 :=
    if st1.cursor_position.y < st1.text_offset.y then
      { st1 with text_offset := { st1.text_offset with y := st1.cursor_position.y } }
    else st1
  let st3 :=
    if st2.cursor_position.y ≥ st2.text_offset.y + st2.screen_dimensions.rows then
      { st2 with
        text_offset :=
          { st2.text_offset with
            y := st2.cursor_position.y - st2.screen_dimensions.rows + 1 } }
    else st2
  let st4 :=
    if st3.cursor_render_x < st3.text_offset.x then
      { st3 with text_offset := { st3.text_offset with x := st3.cursor_render_x } }
    else st3
  if st4.cursor_render_x ≥ st4.text_offset.x + st4.screen_dimensions.cols then
    { st4 with
      text_offset :=
        { st4.text_offset with
          x := st4.cursor_render_x - st4.screen_dimensions.cols + 1 } }
  else st4

/-! ## Cursor movement (src lines 751-799) -/

/-- `Editor::move_cursor` (src lines 751-799). -/
def Editor.move_cursor (st : Editor) (arrow : Arrow) : Editor × KeypressResult :=
  let st1 :=
    match arrow with
    | Arrow.Up =>
      if 0 < st.cursor_position.y then
        let s := { st with cursor_position := { st.cursor_position with y := st.cursor_position.y - 1 } }
        { s with cursor_position := { s.cursor_position with x := s.get_char_index } }
      else st
    | Arrow.Left =>
      if 0 < st.cursor_position.x then
        { st with cursor_position := { st.cursor_position with x := st.cursor_position.x - 1 } }
      else if 0 < st.cursor_position.y then
        let s := { st with cursor_position := { st.cursor_position with y := st.cursor_position.y - 1 } }
        { s with
          cursor_position :=
            { s.cursor_position with x := (s.get_current_row.getD emptyRow).chars.length } }
      else st
    | Arrow.Down =>
      if st.cursor_position.y < st.rows.length then
        let s := { st with cursor_position := { st.cursor_position with y := st.cursor_position.y + 1 } }
        { s with cursor_position := { s.cursor_position with x := s.get_char_index } }
      else st
    | Arrow.Right =>
      match st.get_current_row with
      | some row =>
        if st.cursor_position.x < row.chars.length then
          { st with cursor_position := { st.cursor_position with x := st.cursor_position.x + 1 } }
        else if st.cursor_position.x = row.chars.length then
          { st with cursor_position := { x := 0, y := st.cursor_position.y + 1 } }
        else st
      | none => st
  let row_length :=
    match st1.get_current_row with
    | some row => row.chars.length
    | none => 0
  let st2 :=
    if st1.cursor_position.x > row_length then
      { st1 with cursor_position := { st1.cursor_position with x := row_length } }
    else st1
  (st2, KeypressResult.Continue)

/-! ## The search engine (src lines 372-445) -/

/-- An abstract compiled regular expression: the two operations the source
uses (`Regex::is_match` and `Regex::find(...).start()`). -/
structure Rx where
  is_match : List Char → Bool
  find_start : List Char → Option Nat

/-- The scan loop of `Editor::find_callback` (src lines 409-413): indices of
the rows the compiled pattern matches, in row order. -/
def scanMatches (rx : Rx) : List Row → Nat → List Nat
  | [], _ => []
  | r :: rs, i =>
    if rx.is_match r.chars then i :: scanMatches rx rs (i + 1)
    else scanMatches rx rs (i + 1)

/-- The `": k out of n results"` status text (src lines 427-431). -/
def resultsMsg (k n : Nat) : List Char :=
  ": ".toList ++ (toString k).toList ++ " out of ".toList ++ (toString n).toList
    ++ " results".toList

/-- The straight-line tail of `Editor::find_callback` after the key match
(src lines 417-431): the "No results" check, the move of cursor and vertical
offset to the selected match, and the result message.  `Run.panicked` marks
the direct indexing `self.rows[self.matches[self.match_index]]` and
`regex.find(..).unwrap()`, program errors in Rust when they miss. -/
def findCallbackCont (regex : Rx) (st2 : Editor) : Run (Editor × List Char) :=
  if st2.matches_.isEmpty then Run.ok (st2, ": No results".toList)
  else
    match st2.matches_.get? st2.match_index with
    | none => Run.panicked
    | some mi =>
      match st2.rows.get? mi with
      | none => Run.panicked
      | some row =>
        match regex.find_start row.chars with
        | none => Run.panicked
        | some start =>
          Run.ok
            ({ st2 with
                cursor_position := { x := start, y := mi },
                text_offset := { st2.text_offset with y := mi } },
              resultsMsg (st2.match_index + 1) st2.matches_.length)

/-- `Editor::find_callback` (src lines 374-432), parameterized by the regex
engine.  `Run.panicked` marks the places where the source is a program
error in Rust: the usize underflow of `self.matches.len() - 1` on an empty
match list (a panic in debug builds), and the checks inside
`findCallbackCont`. -/
def find_callback (compile : List Char → Option Rx) (st : Editor)
    (query : List Char) (key : Key) : Run (Editor × List Char) :=
  if query.isEmpty then Run.ok (st, [])
  else
    match compile query with
    | none => Run.ok (st, ": Invalid regex".toList)
    | some regex =>
      match key with
      | Key.Esc | Key.Enter =>
        Run.ok ({ st with matches_ := [], match_index := 0 }, [])
      | _ =>
        let stepped : Run Editor :=
          match key with
          | Key.Arrow Arrow.Left | Key.Arrow Arrow.Up =>
            if st.match_index = 0 then
              if st.matches_.length = 0 then Run.panicked
              else Run.ok { st with match_index := st.matches_.length - 1 }
            else Run.ok { st with match_index := st.match_index - 1 }
          | Key.Arrow Arrow.Right | Key.Arrow Arrow.Down =>
            if st.matches_.length = 0 then Run.panicked
            else if st.match_index = st.matches_.length - 1 then
              Run.ok { st with match_index := 0 }
            else Run.ok { st with match_index := st.match_index + 1 }
          | _ =>
            Run.ok { st with matches_ := scanMatches regex st.rows 0, match_index := 0 }
        match stepped with
        | Run.panicked => Run.panicked
        | Run.blocked => Run.blocked
        | Run.ok st2 => findCallbackCont regex st2

/-! ## The prompt loop (src lines 642-680)

The loop consumes at least one pending byte per iteration (`read_key` blocks
until a byte arrives), which is the termination measure. -/

theorem read_escape_sequence_length (bs : List Nat) :
    (read_escape_sequence bs).2.length ≤ bs.length := by
  match bs with
  | [] => rfl
  | [b] =>
    unfold read_escape_sequence
    dsimp only
    split_ifs <;> simp
  | [b, c] =>
    unfold read_escape_sequence
    dsimp only
    simp only [apply_ite (Prod.snd : Key × List Nat → List Nat)]
    split_ifs <;> simp
  | b :: c :: d :: rest =>
    unfold read_escape_sequence
    dsimp only
    simp only [apply_ite (Prod.snd : Key × List Nat → List Nat)]
    split_ifs <;> simp
    all_goals omega

theorem readKey_length {bs : List Nat} {k : Key} {rest : List Nat}
    (h : readKey bs = some (k, rest)) : rest.length < bs.length := by
  match bs with
  | [] => simp [readKey] at h
  | b :: r =>
    have h2 : rest = r ∨ rest = (read_escape_sequence r).2 := by
      simp only [readKey, Option.some.injEq] at h
      split_ifs at h <;>
        first
          | exact Or.inl (congrArg Prod.snd h).symm
          | exact Or.inr (congrArg Prod.snd h).symm
    have h3 := read_escape_sequence_length r
    rcases h2 with rfl | rfl <;> simp only [List.length_cons] <;> omega

/-- `Editor::prompt` (src lines 642-680), over the pending input bytes.
`refresh_screen` at the top of each iteration contributes its state effect,
the `scroll` recomputation (src line 607); the status-message formatting is
display-only.  The result carries the accepted input (`none` on cancel), the
final editor state, and the unconsumed bytes. -/
def prompt (cb : Editor → List Char → Key → Run (Editor × List Char))
    (st : Editor) (input : List Char) (bytes : List Nat) :
    Run (Option (List Char) × Editor × List Nat) :=
  let st1 := st.scroll
  match h : readKey bytes with
  | none => Run.blocked
  | some (key, rest) =>
    match key with
    | Key.Backspace | Key.Delete =>
      let input1 := input.dropLast
      match cb st1 input1 key with
      | Run.ok (st2, _) => prompt cb st2 input1 rest
      | Run.blocked => Run.blocked
      | Run.panicked => Run.panicked
    | Key.Esc =>
      match cb st1 input Key.Esc with
      | Run.ok (st2, _) => Run.ok (none, st2, rest)
      | Run.blocked => Run.blocked
      | Run.panicked => Run.panicked
    | Key.Enter =>
      if input.isEmpty then
        match cb st1 input Key.Enter with
        | Run.ok (st2, _) => prompt cb st2 input rest
        | Run.blocked => Run.blocked
        | Run.panicked => Run.panicked
      else
        match cb st1 input Key.Enter with
        | Run.ok (st2, _) => Run.ok (some input, st2, rest)
        | Run.blocked => Run.blocked
        | Run.panicked => Run.panicked
    | Key.Char c =>
      let input1 := input ++ [c]
      match cb st1 input1 (Key.Char c) with
      | Run.ok (st2, _) => prompt cb st2 input1 rest
      | Run.blocked => Run.blocked
      | Run.panicked => Run.panicked
    | k =>
      match cb st1 input k with
      | Run.ok (st2, _) => prompt cb st2 input rest
      | Run.blocked => Run.blocked
      | Run.panicked => Run.panicked
termination_by bytes.length
decreasing_by all_goals exact readKey_length h

/-- `Editor::find` (src lines 434-445): run the prompt with `find_callback`;
on a cancelled prompt restore the saved cursor position and text offset. -/
def Editor.find (compile : List Char → Option Rx) (st : Editor)
    (bytes : List Nat) : Run (Editor × List Nat) :=
  match prompt (find_callback compile) st [] bytes with
  | Run.ok (none, st1, rest) =>
    Run.ok
      ({ st1 with cursor_position := st.cursor_position, text_offset := st.text_offset },
        rest)
  | Run.ok (some _, st1, rest) => Run.ok (st1, rest)
  | Run.blocked => Run.blocked
  | Run.panicked => Run.panicked

/-! ## Saving (src lines 336-370) -/

/-- The `File::create` / `write_all` part of `Editor::save` (src lines
348-369), with the file system as an oracle `fs` reporting success: a
successful write clears the dirty flag, a failed one only reports (the
status message is display-only). -/
def saveWrite (fs : List Char → List Char → Bool) (st : Editor) : Editor :=
  match st.filename with
  | some name => if fs name st.rows_to_string then { st with dirty := false } else st
  | none => st

/-- `Editor::save` (src lines 336-370): prompt for a filename when there is
none (the prompt's callback does nothing and returns an empty message); a
cancelled prompt aborts the save with the filename still unset. -/
def Editor.save (fs : List Char → List Char → Bool) (st : Editor)
    (bytes : List Nat) : Run (Editor × List Nat) :=
  match st.filename with
  | some _ => Run.ok (saveWrite fs st, bytes)
  | none =>
    match prompt (fun s _ _ => Run.ok (s, [])) st [] bytes with
    | Run.ok (res, st1, rest) =>
      let st2 := { st1 with filename := res }
      match res with
      | none => Run.ok (st2, rest)
      | some _ => Run.ok (saveWrite fs st2, rest)
    | Run.blocked => Run.blocked
    | Run.panicked => Run.panicked

/-! ## Keypress processing (src lines 829-916) -/

/-- The `for _ in 0..self.screen_dimensions.rows - 1` movement loops of the
PageUp/PageDown arm (src lines 872-878). -/
def Editor.moveCursorTimes (st : Editor) (a : Arrow) : Nat → Editor
  | 0 => st
  | n + 1 => Editor.moveCursorTimes (st.move_cursor a).1 a n

/-- The arm dispatch of `Editor::process_keypress` (src lines 832-912),
minus the early-returning quit-confirmation branch, which
`Editor.process_keypress` peels off before calling this. -/
def processKeyMain (fs : List Char → List Char → Bool)
    (compile : List Char → Option Rx) (st : Editor) (key : Key)
    (rest : List Nat) : Run (Editor × KeypressResult × List Nat) :=
  match key with
  | Key.Enter => Run.ok (st.insert_newline, KeypressResult.Continue, rest)
  | Key.Ctrl c =>
    if c = 'q' then Run.ok (st, KeypressResult.Terminate, rest)
    else if c = 's' then
      match st.save fs rest with
      | Run.ok (st1, rest1) => Run.ok (st1, KeypressResult.Continue, rest1)
      | Run.blocked => Run.blocked
      | Run.panicked => Run.panicked
    else if c = 'r' then
      match st.find compile rest with
      | Run.ok (st1, rest1) => Run.ok (st1, KeypressResult.Continue, rest1)
      | Run.blocked => Run.blocked
      | Run.panicked => Run.panicked
    else if c = 'l' then Run.ok (st, KeypressResult.Continue, rest)
    else
      Run.ok (st.insertChar (Char.ofNat (c.toNat &&& 159)), KeypressResult.Continue, rest)
  | Key.Arrow a => Run.ok ((st.move_cursor a).1, KeypressResult.Continue, rest)
  | Key.PageUp =>
    let st1 := { st with cursor_position := { st.cursor_position with y := st.text_offset.y } }
    Run.ok (st1.moveCursorTimes Arrow.Up (st1.screen_dimensions.rows - 1),
      KeypressResult.Continue, rest)
  | Key.PageDown =>
    let y1 := st.text_offset.y + st.screen_dimensions.rows - 1
    let y2 := if y1 > st.rows.length then st.rows.length else y1
    let st1 := { st with cursor_position := { st.cursor_position with y := y2 } }
    Run.ok (st1.moveCursorTimes Arrow.Down (st1.screen_dimensions.rows - 1),
      KeypressResult.Continue, rest)
  | Key.Home =>
    Run.ok ({ st with cursor_position := { st.cursor_position with x := 0 } },
      KeypressResult.Continue, rest)
  | Key.End =>
    match st.get_current_row with
    | some row =>
      Run.ok ({ st with cursor_position := { st.cursor_position with x := row.chars.length } },
        KeypressResult.Continue, rest)
    | none => Run.ok (st, KeypressResult.Continue, rest)
  | Key.Backspace => Run.ok (st.deleteChar, KeypressResult.Continue, rest)
  | Key.Delete =>
    Run.ok ((st.move_cursor Arrow.Right).1.deleteChar, KeypressResult.Continue, rest)
  | Key.Esc => Run.ok (st, KeypressResult.Continue, rest)
  | Key.Char c => Run.ok (st.insertChar c, KeypressResult.Continue, rest)

/-- `Editor::process_keypress` (src lines 829-916): read one key; with
unsaved changes and confirmations left, a Ctrl-Q decrements the counter and
returns early (src lines 838-846) — every other path runs its arm and then
resets the counter to `QUIT_TIMES` (src line 914). -/
def Editor.process_keypress (fs : List Char → List Char → Bool)
    (compile : List Char → Option Rx) (st : Editor) (bytes : List Nat) :
    Run (Editor × KeypressResult × List Nat) :=
  match readKey bytes with
  | none => Run.blocked
  | some (key, rest) =>
    if key = Key.Ctrl 'q' ∧ st.dirty = true ∧ 0 < st.quit_times then
      Run.ok ({ st with quit_times := st.quit_times - 1 }, KeypressResult.Continue, rest)
    else
      match processKeyMain fs compile st key rest with
      | Run.ok (st1, res, rest1) =>
        Run.ok ({ st1 with quit_times := QUIT_TIMES }, res, rest1)
      | Run.blocked => Run.blocked
      | Run.panicked => Run.panicked

/-! ## Concrete instances used by witnesses -/

/-- First position at which `pat` occurs in a string — a concrete stand-in
for a compiled literal pattern. -/
def firstOccurrence (pat : List Char) : List Char → Option Nat
  | [] => if pat.isEmpty then some 0 else none
  | s@(_ :: rest) =>
    if pat.isPrefixOf s then some 0
    else (firstOccurrence pat rest).map (· + 1)

/-- A regex engine that compiles every pattern, to its literal-substring
matcher. -/
def litCompile (q : List Char) : Option Rx :=
  some { is_match := fun s => (firstOccurrence q s).isSome, find_start := firstOccurrence q }

/-- A file-system oracle whose writes always succeed. -/
def fsAlways : List Char → List Char → Bool := fun _ _ => true

def sampleEditor : Editor :=
  { screen_dimensions := { rows := 24, cols := 80 },
    cursor_position := { x := 0, y := 0 },
    cursor_render_x := 0,
    text_offset := { x := 0, y := 0 },
    rows := [],
    filename := none,
    dirty := false,
    quit_times := QUIT_TIMES,
    matches_ := [],
    match_index := 0 }

/-! ## Claim theorems -/

theorem tabFill_length (n : Nat) : (tabFill n).length = n := by
  induction n with
  | zero => rfl
  | succ m ih => simp [tabFill, ih]

theorem pushChar_extends (acc : List Char) (c : Char) :
    ∃ t, pushChar acc c = acc ++ t := by
  unfold pushChar
  split_ifs <;> exact ⟨_, rfl⟩

theorem foldl_pushChar_extends (l : List Char) :
    ∀ acc : List Char, ∃ t, List.foldl pushChar acc l = acc ++ t := by
  induction l with
  | nil => exact fun acc => ⟨[], by simp⟩
  | cons c cs ih =>
    intro acc
    obtain ⟨t1, ht1⟩ := pushChar_extends acc c
    obtain ⟨t2, ht2⟩ := ih (pushChar acc c)
    exact ⟨t1 ++ t2, by rw [List.foldl_cons, ht2, ht1, List.append_assoc]⟩

theorem updateRender_append_tab (pre : List Char) :
    updateRender (pre ++ ['\t']) =
      updateRender pre ++ tabFill (TAB_STOP - (updateRender pre).length % TAB_STOP) := by
  simp [updateRender, NON_PRINTING_CHARACTERS, List.foldl_append, pushChar]

/-- C5: for every line containing a tab (written `pre ++ '\t' :: post`), the
rendered form extends the render of `pre ++ ['\t']`, whose length — the
visual column immediately after the tab — equals
`v + (TAB_STOP - v % TAB_STOP)` for `v` the visual column before the tab:
a multiple of the tab width (8), strictly greater than `v`, and at most
`v + 8`, i.e. the smallest multiple of 8 strictly greater than `v`.  In
particular `"a\tb"` renders with `b` at visual column 8. -/
theorem C5_tab_expansion :
    (∀ pre post : List Char,
      (∃ t, updateRender (pre ++ '\t' :: post) = updateRender (pre ++ ['\t']) ++ t) ∧
      (updateRender (pre ++ ['\t'])).length
        = (updateRender pre).length + (TAB_STOP - (updateRender pre).length % TAB_STOP) ∧
      (updateRender pre).length < (updateRender (pre ++ ['\t'])).length ∧
      (updateRender (pre ++ ['\t'])).length % TAB_STOP = 0 ∧
      (updateRender (pre ++ ['\t'])).length ≤ (updateRender pre).length + TAB_STOP) ∧
    (updateRender ['a', '\t', 'b']).get? 8 = some 'b' := by
  constructor
  · intro pre post
    have hsplit : pre ++ '\t' :: post = (pre ++ ['\t']) ++ post := by simp
    have hext : ∃ t, updateRender (pre ++ '\t' :: post) = updateRender (pre ++ ['\t']) ++ t := by
      rw [hsplit]
      simp only [updateRender, NON_PRINTING_CHARACTERS, Bool.false_eq_true, if_false,
        List.foldl_append]
      exact foldl_pushChar_extends post _
    have hlen : (updateRender (pre ++ ['\t'])).length
        = (updateRender pre).length + (TAB_STOP - (updateRender pre).length % TAB_STOP) := by
      rw [updateRender_append_tab]
      simp [tabFill_length]
    have ht8 : TAB_STOP = 8 := rfl
    rw [ht8] at hlen
    refine ⟨hext, by rw [ht8]; exact hlen, ?_, ?_, ?_⟩ <;> rw [hlen] <;> try rw [ht8]
    all_goals omega
  · decide

theorem renderAdvance_lt (ri : Nat) (c : Char) : ri < renderAdvance ri c := by
  unfold renderAdvance
  split_ifs <;> omega

theorem renderIndexLoop_le (l : List Char) :
    ∀ ri, ri + l.length ≤ renderIndexLoop ri l := by
  induction l with
  | nil => simp [renderIndexLoop]
  | cons c cs ih =>
    intro ri
    have h1 := renderAdvance_lt ri c
    have h2 := ih (renderAdvance ri c)
    simp only [renderIndexLoop, List.length_cons]
    omega

theorem charIndexLoop_eq (cs : List Char) :
    ∀ k ri ci, 1 ≤ k → k ≤ cs.length →
      charIndexLoop (renderIndexLoop ri (cs.take k)) ri ci cs = ci + k := by
  induction cs with
  | nil =>
    intro k ri ci h1 h2
    simp at h2
    omega
  | cons c rest ih =>
    intro k ri ci h1 h2
    match k with
    | 1 =>
      simp only [List.take_succ_cons, List.take_zero, renderIndexLoop, charIndexLoop]
      rw [if_pos (le_refl _)]
    | j + 2 =>
      have hlen : (rest.take (j + 1)).length = j + 1 := by
        rw [List.length_take]
        simp only [List.length_cons] at h2
        omega
      have hbound := renderIndexLoop_le (rest.take (j + 1)) (renderAdvance ri c)
      have hlt := renderAdvance_lt ri c
      simp only [List.take_succ_cons, renderIndexLoop, charIndexLoop]
      rw [if_neg (by omega)]
      have := ih (j + 1) (renderAdvance ri c) (ci + 1) (by omega)
        (by simp only [List.length_cons] at h2; omega)
      simp only [renderIndexLoop] at this
      rw [this]
      omega

/-- C4: for every line (a cursor row inside the document) and every logical
column at most the line length, the reverse translation `get_char_index` of
the forward translation `get_render_index` (installed into
`cursor_render_x`, as `scroll` does) returns the logical column again.
The source establishes this with no side condition: a logical column never
falls strictly inside a tab's expansion, so the claim's proviso is always
satisfied. -/
theorem C4_round_trip (st : Editor)
    (hy : st.cursor_position.y < st.rows.length)
    (hx : st.cursor_position.x ≤ (st.rows.getD st.cursor_position.y emptyRow).chars.length) :
    Editor.get_char_index { st with cursor_render_x := st.get_render_index }
      = st.cursor_position.x := by
  rcases Nat.eq_zero_or_pos st.cursor_position.x with hx0 | hx1
  · have hr : st.get_render_index = 0 := by
      unfold Editor.get_render_index
      rw [if_pos (Or.inr hx0)]
    unfold Editor.get_char_index
    simp only [hr]
    rw [if_pos (Or.inr trivial)]
    exact hx0.symm
  · have hr : st.get_render_index
        = renderIndexLoop 0
            ((st.rows.getD st.cursor_position.y emptyRow).chars.take st.cursor_position.x) := by
      unfold Editor.get_render_index
      rw [if_neg]
      push_neg
      exact ⟨by omega, by omega⟩
    have htake : ((st.rows.getD st.cursor_position.y emptyRow).chars.take
        st.cursor_position.x).length = st.cursor_position.x := by
      rw [List.length_take]
      omega
    have hpos : 0 < st.get_render_index := by
      rw [hr]
      have := renderIndexLoop_le
        ((st.rows.getD st.cursor_position.y emptyRow).chars.take st.cursor_position.x) 0
      omega
    unfold Editor.get_char_index
    rw [if_neg (by push_neg; exact ⟨by simp; omega, by simp; omega⟩)]
    simp only [hr]
    have := charIndexLoop_eq (st.rows.getD st.cursor_position.y emptyRow).chars
      st.cursor_position.x 0 0 hx1 hx
    simpa using this

def c4WitnessState : Editor :=
  { sampleEditor with
    rows := [mkRow ['a', '\t', 'b']],
    cursor_position := { x := 2, y := 0 } }

/-- Witness for C4 at a concrete line containing a tab. -/
theorem C4_round_trip_witness :
    Editor.get_char_index
      { c4WitnessState with cursor_render_x := c4WitnessState.get_render_index } = 2 :=
  C4_round_trip c4WitnessState (by decide) (by decide)

/-- C3: after every `scroll` recomputation, for any cursor position and any
prior offset, with screen rows and columns at least 1, the cursor's visual
row lies in `[offset.y, offset.y + rows)` and its visual column
(`cursor_render_x`) lies in `[offset.x, offset.x + cols)`. -/
theorem C3_viewport_containment (st : Editor)
    (hrows : 1 ≤ st.screen_dimensions.rows)
    (hcols : 1 ≤ st.screen_dimensions.cols) :
    st.scroll.text_offset.y ≤ st.scroll.cursor_position.y ∧
    st.scroll.cursor_position.y
      < st.scroll.text_offset.y + st.scroll.screen_dimensions.rows ∧
    st.scroll.text_offset.x ≤ st.scroll.cursor_render_x ∧
    st.scroll.cursor_render_x
      < st.scroll.text_offset.x + st.scroll.screen_dimensions.cols := by
  unfold Editor.scroll
  dsimp only
  simp only [apply_ite Editor.text_offset, apply_ite Editor.cursor_position,
    apply_ite Editor.screen_dimensions, apply_ite Editor.cursor_render_x,
    apply_ite Position.x, apply_ite Position.y, apply_ite Dimensions.rows,
    apply_ite Dimensions.cols]
  split_ifs <;> refine ⟨by omega, by omega, by omega, by omega⟩

/-- Witness for C3 at a concrete editor state. -/
theorem C3_viewport_containment_witness :
    sampleEditor.scroll.text_offset.y ≤ sampleEditor.scroll.cursor_position.y ∧
    sampleEditor.scroll.cursor_position.y
      < sampleEditor.scroll.text_offset.y + sampleEditor.scroll.screen_dimensions.rows ∧
    sampleEditor.scroll.text_offset.x ≤ sampleEditor.scroll.cursor_render_x ∧
    sampleEditor.scroll.cursor_render_x
      < sampleEditor.scroll.text_offset.x + sampleEditor.scroll.screen_dimensions.cols :=
  C3_viewport_containment sampleEditor (by decide) (by decide)

/-- The escape-sequence continuations the decoder recognizes (the table in
the source comments, src lines 707-737): `[A/B/C/D/H/F`, `[n~` for
n ∈ {1,3,4,5,6,7,8}, `OH`, `OF`.  Used to state that everything else
collapses to `Key.Esc`. -/
def escRecognized (bs : List Nat) : Bool :=
  match bs with
  | b :: c :: rest =>
    if b = 91 then
      if c = 65 ∨ c = 66 ∨ c = 67 ∨ c = 68 ∨ c = 72 ∨ c = 70 then true
      else
        match rest with
        | d :: _ =>
          if d = 126 ∧ (c = 49 ∨ c = 55 ∨ c = 52 ∨ c = 56 ∨ c = 51 ∨ c = 53 ∨ c = 54) then
            true
          else false
        | [] => false
    else if b = 79 then
      if c = 72 ∨ c = 70 then true else false
    else false
  | _ => false

theorem rse2_esc_or_recognized (b c : Nat) :
    (read_escape_sequence [b, c]).1 = Key.Esc ∨ escRecognized [b, c] = true := by
  unfold read_escape_sequence
  dsimp only
  by_cases hb91 : b = 91
  · rw [if_pos hb91]
    by_cases h1 : c = 65
    · exact Or.inr (by subst hb91; subst h1; simp [escRecognized])
    rw [if_neg h1]
    by_cases h2 : c = 66
    · exact Or.inr (by subst hb91; subst h2; simp [escRecognized])
    rw [if_neg h2]
    by_cases h3 : c = 67
    · exact Or.inr (by subst hb91; subst h3; simp [escRecognized])
    rw [if_neg h3]
    by_cases h4 : c = 68
    · exact Or.inr (by subst hb91; subst h4; simp [escRecognized])
    rw [if_neg h4]
    by_cases h5 : c = 72
    · exact Or.inr (by subst hb91; subst h5; simp [escRecognized])
    rw [if_neg h5]
    by_cases h6 : c = 70
    · exact Or.inr (by subst hb91; subst h6; simp [escRecognized])
    rw [if_neg h6]
    by_cases h7 : 48 ≤ c ∧ c ≤ 57
    · rw [if_pos h7]
      exact Or.inl rfl
    · rw [if_neg h7]
      exact Or.inl rfl
  · rw [if_neg hb91]
    by_cases hb79 : b = 79
    · rw [if_pos hb79]
      by_cases h1 : c = 72
      · exact Or.inr (by subst hb79; subst h1; simp [escRecognized])
      rw [if_neg h1]
      by_cases h2 : c = 70
      · exact Or.inr (by subst hb79; subst h2; simp [escRecognized])
      rw [if_neg h2]
      exact Or.inl rfl
    · rw [if_neg hb79]
      exact Or.inl rfl

theorem rse3_esc_or_recognized (b c d : Nat) (rest : List Nat) :
    (read_escape_sequence (b :: c :: d :: rest)).1 = Key.Esc
      ∨ escRecognized (b :: c :: d :: rest) = true := by
  unfold read_escape_sequence
  dsimp only
  by_cases hb91 : b = 91
  · rw [if_pos hb91]
    by_cases h1 : c = 65
    · exact Or.inr (by subst hb91; subst h1; simp [escRecognized])
    rw [if_neg h1]
    by_cases h2 : c = 66
    · exact Or.inr (by subst hb91; subst h2; simp [escRecognized])
    rw [if_neg h2]
    by_cases h3 : c = 67
    · exact Or.inr (by subst hb91; subst h3; simp [escRecognized])
    rw [if_neg h3]
    by_cases h4 : c = 68
    · exact Or.inr (by subst hb91; subst h4; simp [escRecognized])
    rw [if_neg h4]
    by_cases h5 : c = 72
    · exact Or.inr (by subst hb91; subst h5; simp [escRecognized])
    rw [if_neg h5]
    by_cases h6 : c = 70
    · exact Or.inr (by subst hb91; subst h6; simp [escRecognized])
    rw [if_neg h6]
    by_cases h7 : 48 ≤ c ∧ c ≤ 57
    · rw [if_pos h7]
      by_cases h126 : d = 126
      · rw [if_pos h126]
        dsimp only
        by_cases h8 : c = 49 ∨ c = 55
        · refine Or.inr ?_
          subst hb91; subst h126
          rcases h8 with rfl | rfl <;> simp [escRecognized]
        rw [if_neg h8]
        by_cases h9 : c = 52 ∨ c = 56
        · refine Or.inr ?_
          subst hb91; subst h126
          rcases h9 with rfl | rfl <;> simp [escRecognized]
        rw [if_neg h9]
        by_cases h10 : c = 51
        · exact Or.inr (by subst hb91; subst h126; subst h10; simp [escRecognized])
        rw [if_neg h10]
        by_cases h11 : c = 53
        · exact Or.inr (by subst hb91; subst h126; subst h11; simp [escRecognized])
        rw [if_neg h11]
        by_cases h12 : c = 54
        · exact Or.inr (by subst hb91; subst h126; subst h12; simp [escRecognized])
        rw [if_neg h12]
        exact Or.inl rfl
      · rw [if_neg h126]
        exact Or.inl rfl
    · rw [if_neg h7]
      exact Or.inl rfl
  · rw [if_neg hb91]
    by_cases hb79 : b = 79
    · rw [if_pos hb79]
      by_cases h1 : c = 72
      · exact Or.inr (by subst hb79; subst h1; simp [escRecognized])
      rw [if_neg h1]
      by_cases h2 : c = 70
      · exact Or.inr (by subst hb79; subst h2; simp [escRecognized])
      rw [if_neg h2]
      exact Or.inl rfl
    · rw [if_neg hb79]
      exact Or.inl rfl

theorem rse_esc_or_recognized (bs : List Nat) :
    (read_escape_sequence bs).1 = Key.Esc ∨ escRecognized bs = true := by
  match bs with
  | [] => exact Or.inl rfl
  | [b] =>
    unfold read_escape_sequence
    dsimp only
    by_cases hb91 : b = 91
    · rw [if_pos hb91]
      exact Or.inl rfl
    rw [if_neg hb91]
    by_cases hb79 : b = 79
    · rw [if_pos hb79]
      exact Or.inl rfl
    rw [if_neg hb79]
    exact Or.inl rfl
  | [b, c] => exact rse2_esc_or_recognized b c
  | b :: c :: d :: rest => exact rse3_esc_or_recognized b c d rest

/-- C6: the input decoder maps `ESC [ A` to Up and `ESC [ 3 ~` to Delete
(consuming exactly those bytes), a lone `ESC` with nothing further available
to `Key.Esc`; every unrecognized or incomplete continuation after the ESC
yields `Key.Esc`; and the decoder consumes at most 3 bytes after the ESC —
it never waits for more input inside a sequence. -/
theorem C6_escape_decoding :
    (∀ rest : List Nat, readKey (27 :: 91 :: 65 :: rest) = some (Key.Arrow Arrow.Up, rest)) ∧
    (∀ rest : List Nat, readKey (27 :: 91 :: 51 :: 126 :: rest) = some (Key.Delete, rest)) ∧
    readKey [27] = some (Key.Esc, []) ∧
    (∀ bs : List Nat, bs.length ≤ (read_escape_sequence bs).2.length + 3) ∧
    (∀ bs : List Nat, escRecognized bs = false → (read_escape_sequence bs).1 = Key.Esc) := by
  refine ⟨fun rest => rfl, fun rest => rfl, rfl, ?_, ?_⟩
  · intro bs
    match bs with
    | [] => simp
    | [b] => simp
    | [b, c] =>
      have h2 : ([b, c] : List Nat).length = 2 := rfl
      omega
    | b :: c :: d :: rest =>
      unfold read_escape_sequence
      dsimp only
      simp only [apply_ite (Prod.snd : Key × List Nat → List Nat)]
      split_ifs <;> simp <;> omega
  · intro bs h
    rcases rse_esc_or_recognized bs with h1 | h1
    · exact h1
    · rw [h1] at h
      cases h

/-- Witness for C6's unrecognized-continuation hypothesis at the concrete
continuation `Z` (the two-byte input `ESC Z`). -/
theorem C6_escape_decoding_witness :
    (read_escape_sequence [90]).1 = Key.Esc :=
  C6_escape_decoding.2.2.2.2 [90] (by decide)

/-- The editor state of the C1 scenario: a one-line document whose line does
not contain the letter of the query, after the scan for query `x` has run
(match list empty, match index 0). -/
def c1State : Editor :=
  { sampleEditor with rows := [mkRow ['z', 'z', 'z']] }

/-- C1: with a non-empty valid pattern that matches zero lines, the scan
path of `find_callback` does return the distinct `": No results"` status —
but an arrow key pressed while the match list is empty evaluates
`self.matches.len() - 1` on an empty list, a usize underflow (a panic in a
debug build, a wrap in release), so the callback does not satisfy the
claimed "never underflows or panics". -/
theorem C1_no_results_underflow :
    find_callback litCompile c1State ['x'] (Key.Char 'x')
      = Run.ok (c1State, ": No results".toList) ∧
    find_callback litCompile c1State ['x'] (Key.Arrow Arrow.Left) = Run.panicked ∧
    find_callback litCompile c1State ['x'] (Key.Arrow Arrow.Up) = Run.panicked ∧
    find_callback litCompile c1State ['x'] (Key.Arrow Arrow.Right) = Run.panicked ∧
    find_callback litCompile c1State ['x'] (Key.Arrow Arrow.Down) = Run.panicked := by
  refine ⟨?_, by rfl, by rfl, by rfl, by rfl⟩
  show Run.ok ({ c1State with matches_ := [], match_index := 0 }, ": No results".toList)
    = Run.ok (c1State, ": No results".toList)
  rfl

/-- The match index of the editor state a `find_callback` run produced
(`none` when the run did not return normally). -/
def runMatchIndex : Run (Editor × List Char) → Option Nat
  | Run.ok (st, _) => some st.match_index
  | _ => none

/-- The match list of the editor state a `find_callback` run produced. -/
def runMatches : Run (Editor × List Char) → Option (List Nat)
  | Run.ok (st, _) => some st.matches_
  | _ => none

/-- C9: search navigation is circular and does not rescan: with a match
list of length 3, a backward key (Left/Up) at match index 0 selects index 2
and a forward key (Right/Down) at index 2 selects index 0, the match list
unchanged in both cases.  (The hypotheses name a valid compiled pattern and
require every recorded match line to exist and still match, which the scan
that built the list established.) -/
theorem C9_search_wraparound :
    (∀ (compile : List Char → Option Rx) (r : Rx) (st : Editor) (q : List Char) (key : Key),
      q ≠ [] → compile q = some r →
      st.matches_.length = 3 → st.match_index = 0 →
      (key = Key.Arrow Arrow.Left ∨ key = Key.Arrow Arrow.Up) →
      (∀ i ∈ st.matches_, ∃ row, st.rows.get? i = some row ∧ (r.find_start row.chars).isSome) →
      runMatchIndex (find_callback compile st q key) = some 2 ∧
      runMatches (find_callback compile st q key) = some st.matches_) ∧
    (∀ (compile : List Char → Option Rx) (r : Rx) (st : Editor) (q : List Char) (key : Key),
      q ≠ [] → compile q = some r →
      st.matches_.length = 3 → st.match_index = 2 →
      (key = Key.Arrow Arrow.Right ∨ key = Key.Arrow Arrow.Down) →
      (∀ i ∈ st.matches_, ∃ row, st.rows.get? i = some row ∧ (r.find_start row.chars).isSome) →
      runMatchIndex (find_callback compile st q key) = some 0 ∧
      runMatches (find_callback compile st q key) = some st.matches_) := by
  constructor
  · intro compile r st q key hq hcompile hlen hidx hkey hmem
    obtain ⟨m0, m1, m2, hm⟩ := List.length_eq_three.mp hlen
    obtain ⟨row2, hrow2, hfind2⟩ := hmem m2 (by rw [hm]; simp)
    obtain ⟨s2, hs2⟩ := Option.isSome_iff_exists.mp hfind2
    have hqe : q.isEmpty = false := by cases q <;> simp_all
    rcases hkey with rfl | rfl <;>
    · unfold find_callback
      rw [hqe, hcompile]
      dsimp only
      rw [if_pos hidx, if_neg (show ¬st.matches_.length = 0 by omega)]
      rw [hm]
      simp only [List.get?_eq_getElem?] at hrow2
      simp [runMatchIndex, runMatches, findCallbackCont, hrow2, hs2]
  · intro compile r st q key hq hcompile hlen hidx hkey hmem
    obtain ⟨m0, m1, m2, hm⟩ := List.length_eq_three.mp hlen
    obtain ⟨row0, hrow0, hfind0⟩ := hmem m0 (by rw [hm]; simp)
    obtain ⟨s0, hs0⟩ := Option.isSome_iff_exists.mp hfind0
    have hqe : q.isEmpty = false := by cases q <;> simp_all
    rcases hkey with rfl | rfl <;>
    · unfold find_callback
      rw [hqe, hcompile]
      dsimp only
      rw [if_neg (show ¬st.matches_.length = 0 by omega),
        if_pos (show st.match_index = st.matches_.length - 1 by omega)]
      rw [hm]
      simp only [List.get?_eq_getElem?] at hrow0
      simp [runMatchIndex, runMatches, findCallbackCont, hrow0, hs0]

def c9State : Editor :=
  { sampleEditor with
    rows := [mkRow ['x'], mkRow ['x'], mkRow ['x']],
    matches_ := [0, 1, 2] }

/-- Witness for C9 at a concrete three-match search state. -/
theorem C9_search_wraparound_witness :
    runMatchIndex (find_callback litCompile c9State ['x'] (Key.Arrow Arrow.Left)) = some 2 ∧
    runMatches (find_callback litCompile c9State ['x'] (Key.Arrow Arrow.Left))
      = some c9State.matches_ :=
  C9_search_wraparound.1 litCompile
    { is_match := fun s => (firstOccurrence ['x'] s).isSome,
      find_start := firstOccurrence ['x'] }
    c9State ['x'] (Key.Arrow Arrow.Left)
    (by decide) rfl rfl rfl (Or.inl rfl)
    (by
      intro i hi
      fin_cases hi <;> exact ⟨mkRow ['x'], rfl, rfl⟩)

theorem readKey_ctrlQ (rest : List Nat) :
    readKey (17 :: rest) = some (Key.Ctrl 'q', rest) := rfl

theorem process_keypress_quit_decrement (fs : List Char → List Char → Bool)
    (compile : List Char → Option Rx) (st : Editor) (rest : List Nat)
    (hd : st.dirty = true) (hq : 0 < st.quit_times) :
    Editor.process_keypress fs compile st (17 :: rest)
      = Run.ok ({ st with quit_times := st.quit_times - 1 }, KeypressResult.Continue, rest) := by
  unfold Editor.process_keypress
  rw [readKey_ctrlQ]
  dsimp only
  rw [if_pos ⟨rfl, hd, hq⟩]

theorem process_keypress_quit_terminate (fs : List Char → List Char → Bool)
    (compile : List Char → Option Rx) (st : Editor) (rest : List Nat)
    (hq : st.quit_times = 0) :
    Editor.process_keypress fs compile st (17 :: rest)
      = Run.ok ({ st with quit_times := QUIT_TIMES }, KeypressResult.Terminate, rest) := by
  unfold Editor.process_keypress
  rw [readKey_ctrlQ]
  dsimp only
  rw [if_neg (by simp [hq])]
  unfold processKeyMain
  dsimp only
  rw [if_pos rfl]

theorem process_keypress_reset (fs : List Char → List Char → Bool)
    (compile : List Char → Option Rx) (st : Editor) (bytes : List Nat)
    (key : Key) (krest : List Nat) (st1 : Editor) (res : KeypressResult)
    (rest1 : List Nat) (hread : readKey bytes = some (key, krest))
    (hkey : key ≠ Key.Ctrl 'q')
    (hrun : Editor.process_keypress fs compile st bytes = Run.ok (st1, res, rest1)) :
    st1.quit_times = QUIT_TIMES := by
  unfold Editor.process_keypress at hrun
  rw [hread] at hrun
  dsimp only at hrun
  rw [if_neg (by simp [hkey])] at hrun
  rcases hm : processKeyMain fs compile st key krest with ⟨st2, res2, rest2⟩ | _ | _ <;>
    rw [hm] at hrun <;> dsimp only at hrun
  · injection hrun with h1
    injection h1 with h2 h3
    rw [← h2]
  · cases hrun
  · cases hrun

/-- C2: with unsaved changes, each Ctrl-Q (byte 0x11) press decrements the
confirmation counter and continues while it is positive; at counter 0 the
next press terminates; the counter runs 3, 2, 1, 0 from its default before
termination; and processing any keypress other than Ctrl-Q resets the
counter to `QUIT_TIMES` = 3. -/
theorem C2_quit_confirmation :
    (∀ (fs : List Char → List Char → Bool) (compile : List Char → Option Rx)
        (st : Editor) (rest : List Nat), st.dirty = true → 0 < st.quit_times →
      Editor.process_keypress fs compile st (17 :: rest)
        = Run.ok ({ st with quit_times := st.quit_times - 1 }, KeypressResult.Continue, rest)) ∧
    (∀ (fs : List Char → List Char → Bool) (compile : List Char → Option Rx)
        (st : Editor) (rest : List Nat), st.quit_times = 0 →
      Editor.process_keypress fs compile st (17 :: rest)
        = Run.ok ({ st with quit_times := QUIT_TIMES }, KeypressResult.Terminate, rest)) ∧
    (∀ (fs : List Char → List Char → Bool) (compile : List Char → Option Rx)
        (st : Editor) (bytes : List Nat) (key : Key) (krest : List Nat)
        (st1 : Editor) (res : KeypressResult) (rest1 : List Nat),
      readKey bytes = some (key, krest) → key ≠ Key.Ctrl 'q' →
      Editor.process_keypress fs compile st bytes = Run.ok (st1, res, rest1) →
      st1.quit_times = QUIT_TIMES) ∧
    (∀ (fs : List Char → List Char → Bool) (compile : List Char → Option Rx)
        (st : Editor), st.dirty = true → st.quit_times = 3 →
      Editor.process_keypress fs compile st [17]
        = Run.ok ({ st with quit_times := 2 }, KeypressResult.Continue, []) ∧
      Editor.process_keypress fs compile { st with quit_times := 2 } [17]
        = Run.ok ({ st with quit_times := 1 }, KeypressResult.Continue, []) ∧
      Editor.process_keypress fs compile { st with quit_times := 1 } [17]
        = Run.ok ({ st with quit_times := 0 }, KeypressResult.Continue, []) ∧
      Editor.process_keypress fs compile { st with quit_times := 0 } [17]
        = Run.ok ({ st with quit_times := QUIT_TIMES }, KeypressResult.Terminate, [])) := by
  refine ⟨process_keypress_quit_decrement, process_keypress_quit_terminate,
    process_keypress_reset, ?_⟩
  intro fs compile st hd hq3
  refine ⟨?_, ?_, ?_, ?_⟩
  · have h := process_keypress_quit_decrement fs compile st [] hd (by omega)
    rw [hq3] at h
    exact h
  · exact process_keypress_quit_decrement fs compile { st with quit_times := 2 } [] hd
      (Nat.zero_lt_succ _)
  · exact process_keypress_quit_decrement fs compile { st with quit_times := 1 } [] hd
      (Nat.zero_lt_succ _)
  · exact process_keypress_quit_terminate fs compile { st with quit_times := 0 } [] rfl

def c2State : Editor := { sampleEditor with dirty := true }

/-- Witness for C2 at a concrete dirty editor with the default counter. -/
theorem C2_quit_confirmation_witness :
    Editor.process_keypress fsAlways litCompile c2State [17]
      = Run.ok ({ c2State with quit_times := 2 }, KeypressResult.Continue, []) :=
  (C2_quit_confirmation.2.2.2 fsAlways litCompile c2State rfl rfl).1

set_option maxRecDepth 8000 in
set_option synthInstance.maxHeartbeats 400000 in
set_option synthInstance.maxSize 2048 in
theorem ctrl_byte_decode :
    ∀ b : Nat, b < 256 → isControl b = true →
      ¬(b = 8 ∨ b = 127 ∨ b = 13 ∨ b = 27) →
      ¬((b ||| 96) = 113 ∨ (b ||| 96) = 115 ∨ (b ||| 96) = 114 ∨ (b ||| 96) = 108) →
      Char.ofNat (b ||| 96) ≠ 'q' ∧ Char.ofNat (b ||| 96) ≠ 's' ∧
        Char.ofNat (b ||| 96) ≠ 'r' ∧ Char.ofNat (b ||| 96) ≠ 'l' ∧
        (Char.ofNat (b ||| 96)).toNat &&& 159 = b := by
  decide

theorem readKey_ctrl (b : Nat) (rest : List Nat) (h8 : ¬(b = 8 ∨ b = 127))
    (h13 : ¬b = 13) (h27 : ¬b = 27) (hc : isControl b = true) :
    readKey (b :: rest) = some (Key.Ctrl (Char.ofNat (b ||| 96)), rest) := by
  unfold readKey
  dsimp only
  rw [if_neg h8, if_neg h13, if_neg h27, if_pos hc]

theorem insert_row_append (st : Editor) (chars : List Char) :
    st.insert_row st.rows.length chars
      = { st with rows := st.rows ++ [mkRow chars], dirty := true } := by
  unfold Editor.insert_row
  rw [if_neg (lt_irrefl _)]
  simp [List.take_length, List.drop_length]

theorem getD_set_self (l : List Row) (n : Nat) (v d : Row) (h : n < l.length) :
    (l.set n v).getD n d = v := by
  rw [List.getD_eq_getElem _ _ (by simpa using h)]
  exact List.getElem_set_self _

theorem insertChar_rows (st : Editor) (c : Char)
    (hy : st.cursor_position.y ≤ st.rows.length) :
    (st.insertChar c).rows.getD st.cursor_position.y emptyRow
      = ((if st.cursor_position.y = st.rows.length then st.rows ++ [mkRow []]
          else st.rows).getD st.cursor_position.y emptyRow).insert_char
          st.cursor_position.x c := by
  unfold Editor.insertChar
  by_cases h : st.cursor_position.y = st.rows.length
  · rw [if_pos h, if_pos h, insert_row_append]
    dsimp only
    exact getD_set_self _ _ _ _ (by simp [h])
  · rw [if_neg h, if_neg h]
    dsimp only
    exact getD_set_self _ _ _ _ (by omega)

theorem insertChar_dirty_cursor (st : Editor) (c : Char) :
    (st.insertChar c).dirty = true ∧
    (st.insertChar c).cursor_position.x = st.cursor_position.x + 1 := by
  unfold Editor.insertChar
  by_cases h : st.cursor_position.y = st.rows.length
  · rw [if_pos h, insert_row_append]
    exact ⟨rfl, rfl⟩
  · rw [if_neg h]
    exact ⟨rfl, rfl⟩

/-- C10: a control byte bound to no command (not Ctrl-Q/S/R/L and not the
Backspace, Enter, or Escape bytes) is decoded to its `Key.Ctrl` letter and
processing it inserts the letter masked back to the original control code
into the document at the cursor, advances the cursor, and marks the buffer
dirty (the counter reset to `QUIT_TIMES` is the shared epilogue of
`process_keypress`). -/
theorem C10_unbound_control_inserts :
    ∀ (fs : List Char → List Char → Bool) (compile : List Char → Option Rx)
      (st : Editor) (b : Nat) (rest : List Nat),
      b < 256 → isControl b = true →
      ¬(b = 8 ∨ b = 127 ∨ b = 13 ∨ b = 27) →
      ¬((b ||| 96) = 113 ∨ (b ||| 96) = 115 ∨ (b ||| 96) = 114 ∨ (b ||| 96) = 108) →
      st.cursor_position.y ≤ st.rows.length →
      Editor.process_keypress fs compile st (b :: rest)
        = Run.ok ({ st.insertChar (Char.ofNat b) with quit_times := QUIT_TIMES },
            KeypressResult.Continue, rest) ∧
      (Char.ofNat (b ||| 96)).toNat &&& 159 = b ∧
      (st.insertChar (Char.ofNat b)).dirty = true ∧
      (st.insertChar (Char.ofNat b)).cursor_position.x = st.cursor_position.x + 1 ∧
      (st.insertChar (Char.ofNat b)).rows.getD st.cursor_position.y emptyRow
        = ((if st.cursor_position.y = st.rows.length then st.rows ++ [mkRow []]
            else st.rows).getD st.cursor_position.y emptyRow).insert_char
            st.cursor_position.x (Char.ofNat b) := by
  intro fs compile st b rest hlt hctrl hex hmaskh hy
  obtain ⟨hq, hs, hr, hl, hm⟩ := ctrl_byte_decode b hlt hctrl hex hmaskh
  refine ⟨?_, hm, (insertChar_dirty_cursor st _).1, (insertChar_dirty_cursor st _).2,
    insertChar_rows st _ hy⟩
  unfold Editor.process_keypress
  rw [readKey_ctrl b rest (by tauto) (by tauto) (by tauto) hctrl]
  dsimp only
  rw [if_neg (by simp [hq])]
  unfold processKeyMain
  dsimp only
  rw [if_neg hq, if_neg hs, if_neg hr, if_neg hl, hm]

def c10State : Editor := sampleEditor

/-- Witness for C10 at the concrete control byte 0x01 (Ctrl-A) on an empty
document. -/
theorem C10_unbound_control_inserts_witness :
    Editor.process_keypress fsAlways litCompile c10State [1]
      = Run.ok ({ c10State.insertChar (Char.ofNat 1) with quit_times := QUIT_TIMES },
          KeypressResult.Continue, []) :=
  (C10_unbound_control_inserts fsAlways litCompile c10State 1 []
    (by decide) (by decide) (by decide) (by decide) (by decide)).1

theorem rowsContents_acc (rows : List Row) :
    ∀ acc, rowsContents rows acc = acc ++ rowsContents rows [] := by
  induction rows with
  | nil => intro acc; simp [rowsContents]
  | cons r rs ih =>
    intro acc
    simp only [rowsContents]
    rw [ih (acc ++ r.chars ++ ['\n']), ih (([] : List Char) ++ r.chars ++ ['\n'])]
    simp

theorem rows_to_string_join (st : Editor) :
    st.rows_to_string = (st.rows.map (fun r => r.chars ++ ['\n'])).flatten := by
  unfold Editor.rows_to_string
  induction st.rows with
  | nil => rfl
  | cons r rs ih =>
    simp only [rowsContents, List.map_cons, List.flatten]
    rw [rowsContents_acc rs, ih]
    simp

theorem readLinesAux_line (line : List Char) :
    ∀ (acc cs : List Char), '\n' ∉ line →
      readLinesAux acc (line ++ '\n' :: cs)
        = stripTrailingCR (acc.reverse ++ line) :: readLinesAux [] cs := by
  induction line with
  | nil =>
    intro acc cs h
    simp [readLinesAux]
  | cons c cl ih =>
    intro acc cs h
    simp only [List.mem_cons, not_or] at h
    simp only [List.cons_append, readLinesAux]
    rw [if_neg (fun e => h.1 e.symm)]
    simp only [List.append_eq]
    rw [ih (c :: acc) cs h.2]
    simp

theorem stripTrailingCR_eq (l : List Char) (h : l.getLast? ≠ some '\r') :
    stripTrailingCR l = l := by
  unfold stripTrailingCR
  rw [if_neg h]

theorem readLines_rowsContents (rows : List Row)
    (h : ∀ r ∈ rows, '\n' ∉ r.chars ∧ r.chars.getLast? ≠ some '\r') :
    readLines (rowsContents rows []) = rows.map Row.chars := by
  induction rows with
  | nil => rfl
  | cons r rs ih =>
    simp only [rowsContents]
    rw [rowsContents_acc rs]
    unfold readLines
    rw [show (([] : List Char) ++ r.chars ++ ['\n']) ++ rowsContents rs []
        = r.chars ++ '\n' :: rowsContents rs [] by simp]
    rw [readLinesAux_line r.chars [] _ (h r (by simp)).1]
    rw [show (([] : List Char).reverse ++ r.chars) = r.chars by simp]
    rw [stripTrailingCR_eq _ (h r (by simp)).2]
    have ih2 := ih (fun r2 hr2 => h r2 (by simp [hr2]))
    unfold readLines at ih2
    rw [ih2]
    simp

theorem openFold_rows (lines : List (List Char)) :
    ∀ st : Editor,
      (lines.foldl (fun s l => s.insert_row s.rows.length l) st).rows
        = st.rows ++ lines.map mkRow := by
  induction lines with
  | nil => intro st; simp
  | cons l ls ih =>
    intro st
    simp only [List.foldl_cons]
    rw [ih (st.insert_row st.rows.length l), insert_row_append]
    simp

theorem openFile_rows (st : Editor) (fn contents : List Char) :
    (Editor.openFile { st with rows := [] } fn contents).rows
      = (readLines contents).map mkRow := by
  unfold Editor.openFile
  dsimp only
  rw [openFold_rows]
  rfl

def c7Doc : Editor :=
  { sampleEditor with rows := [mkRow ['a', 'b', 'c'], mkRow ['d', 'e', 'f']] }

def c7Bad : Editor := { sampleEditor with rows := [mkRow ['a', '\n', 'b']] }

/-- C7 counterexample: the claim's "load after save is the identity on
documents" fails for a reachable document whose single line contains an
embedded newline (typed with Ctrl-J, see C10): serializing
`["a\nb"]` yields `"a\nb\n"`, which loads back as the two lines
`["a", "b"]`. -/
theorem C7_counterexample :
    (Editor.openFile sampleEditor ['f'] c7Bad.rows_to_string).rows.map Row.chars
      ≠ c7Bad.rows.map Row.chars := by decide

/-- C7 (amended): serialization emits every line's logical text followed by
one newline (so `["abc","def"]` serializes to `"abc\ndef\n"`), and loading a
serialized document into an empty editor restores exactly the original
lines, for documents none of whose lines contains a newline or ends with a
carriage return. -/
theorem C7_save_load_round_trip :
    (∀ st : Editor, st.rows_to_string = (st.rows.map (fun r => r.chars ++ ['\n'])).flatten) ∧
    c7Doc.rows_to_string = "abc\ndef\n".toList ∧
    (∀ (st : Editor) (fn : List Char),
      (∀ r ∈ st.rows, '\n' ∉ r.chars ∧ r.chars.getLast? ≠ some '\r') →
      (Editor.openFile { st with rows := [] } fn st.rows_to_string).rows.map Row.chars
        = st.rows.map Row.chars) := by
  refine ⟨rows_to_string_join, by decide, ?_⟩
  intro st fn h
  rw [openFile_rows]
  unfold Editor.rows_to_string
  rw [readLines_rowsContents st.rows h]
  rw [List.map_map]
  have : (Row.chars ∘ mkRow) = id := by
    funext l
    rfl
  rw [this, List.map_id]

/-- Witness for C7's round-trip hypothesis at the concrete two-line
document `["abc","def"]`. -/
theorem C7_save_load_round_trip_witness :
    (Editor.openFile { c7Doc with rows := [] } ['f'] c7Doc.rows_to_string).rows.map Row.chars
      = c7Doc.rows.map Row.chars :=
  C7_save_load_round_trip.2.2 c7Doc ['f'] (by decide)

theorem findCallbackCont_selected (r : Rx) (st2 st1 : Editor) (msg : List Char)
    (hrun : findCallbackCont r st2 = Run.ok (st1, msg)) (hne : st1.matches_ ≠ []) :
    st1.cursor_position.y = st1.matches_.getD st1.match_index 0 ∧
    st1.text_offset.y = st1.cursor_position.y := by
  unfold findCallbackCont at hrun
  by_cases he : st2.matches_.isEmpty
  · rw [if_pos he] at hrun
    injection hrun with h1
    injection h1 with h2 h3
    subst h2
    rw [List.isEmpty_iff] at he
    exact absurd he hne
  · rw [if_neg he] at hrun
    rcases hg : st2.matches_.get? st2.match_index with _ | mi <;> rw [hg] at hrun <;>
      dsimp only at hrun
    · cases hrun
    rcases hr : st2.rows.get? mi with _ | row <;> rw [hr] at hrun <;>
      dsimp only at hrun
    · cases hrun
    rcases hf : r.find_start row.chars with _ | start <;> rw [hf] at hrun <;>
      dsimp only at hrun
    · cases hrun
    injection hrun with h1
    injection h1 with h2 h3
    subst h2
    refine ⟨?_, rfl⟩
    dsimp only
    rw [List.getD_eq_getD_get?, hg]
    rfl

theorem find_callback_selected (compile : List Char → Option Rx) (r : Rx)
    (st st1 : Editor) (q : List Char) (k : Key) (msg : List Char)
    (hq : q ≠ []) (hcompile : compile q = some r)
    (hrun : find_callback compile st q k = Run.ok (st1, msg))
    (hne : st1.matches_ ≠ []) :
    st1.cursor_position.y = st1.matches_.getD st1.match_index 0 ∧
    st1.text_offset.y = st1.cursor_position.y := by
  have hqe : q.isEmpty = false := by cases q <;> simp_all
  unfold find_callback at hrun
  rw [hqe] at hrun
  simp only [Bool.false_eq_true, if_false] at hrun
  rw [hcompile] at hrun
  dsimp only at hrun
  cases k with
  | Esc =>
    injection hrun with h1
    injection h1 with h2 h3
    subst h2
    exact absurd rfl hne
  | Enter =>
    injection hrun with h1
    injection h1 with h2 h3
    subst h2
    exact absurd rfl hne
  | Arrow a =>
    rcases a <;>
      · dsimp only at hrun
        split_ifs at hrun <;>
          · dsimp only at hrun
            first
              | cases hrun
              | exact findCallbackCont_selected r _ st1 msg hrun hne
  | _ =>
    dsimp only at hrun
    exact findCallbackCont_selected r _ st1 msg hrun hne

/-- C8: a search cancelled with Escape restores the cursor position and the
viewport offset exactly to their values from before the search began, for
every sequence of prompt keys; a search accepted with Enter keeps the
prompt's final state, the Enter callback itself only clears the match list
and moves nothing, and whenever a callback run leaves a non-empty match
list the cursor sits on the currently selected match with the vertical
offset on the same line. -/
theorem C8_find_cancel_restores :
    (∀ (compile : List Char → Option Rx) (st : Editor) (bytes : List Nat)
        (st1 : Editor) (rest : List Nat),
      prompt (find_callback compile) st [] bytes = Run.ok (none, st1, rest) →
      Editor.find compile st bytes
        = Run.ok
            ({ st1 with
                cursor_position := st.cursor_position,
                text_offset := st.text_offset },
              rest)) ∧
    (∀ (compile : List Char → Option Rx) (st : Editor) (bytes : List Nat)
        (inp : List Char) (st1 : Editor) (rest : List Nat),
      prompt (find_callback compile) st [] bytes = Run.ok (some inp, st1, rest) →
      Editor.find compile st bytes = Run.ok (st1, rest)) ∧
    (∀ (compile : List Char → Option Rx) (r : Rx) (st : Editor) (q : List Char),
      q ≠ [] → compile q = some r →
      find_callback compile st q Key.Enter
        = Run.ok ({ st with matches_ := [], match_index := 0 }, [])) ∧
    (∀ (compile : List Char → Option Rx) (r : Rx) (st st1 : Editor)
        (q : List Char) (k : Key) (msg : List Char),
      q ≠ [] → compile q = some r →
      find_callback compile st q k = Run.ok (st1, msg) → st1.matches_ ≠ [] →
      st1.cursor_position.y = st1.matches_.getD st1.match_index 0 ∧
      st1.text_offset.y = st1.cursor_position.y) := by
  refine ⟨?_, ?_, ?_, ?_⟩
  · intro compile st bytes st1 rest h
    unfold Editor.find
    rw [h]
  · intro compile st bytes inp st1 rest h
    unfold Editor.find
    rw [h]
  · intro compile r st q hq hcompile
    have hqe : q.isEmpty = false := by cases q <;> simp_all
    unfold find_callback
    rw [hqe]
    simp only [Bool.false_eq_true, if_false]
    rw [hcompile]
  · intro compile r st st1 q k msg hq hcompile hrun hne
    exact find_callback_selected compile r st st1 q k msg hq hcompile hrun hne

/-- Witness for C8 at a concrete cancelled search: a lone Escape pressed at
the prompt on an empty document. -/
theorem C8_find_cancel_restores_witness :
    Editor.find litCompile sampleEditor [27]
      = Run.ok
          ({ sampleEditor with
              cursor_position := sampleEditor.cursor_position,
              text_offset := sampleEditor.text_offset },
            []) :=
  C8_find_cancel_restores.1 litCompile sampleEditor [27] sampleEditor []
    (by unfold prompt; rfl)
